import Mathlib

/-!
Shallow embedding of the loxide bytecode virtual machine
(src/loxide/src/vm.rs) and of the parts of its data model the
verified properties need.

Conventions of the embedding:
  - Machine integers (u8, u32) hold small non-negative quantities here
    (instruction offsets, stack indices, frame counts); they are modelled
    as Nat.  No overflow is reachable in the states the theorems quantify
    over, and the source never relies on wrap-around for these fields.
  - The value stack and the call-frame stack are fixed-capacity arrays
    with an explicit top index in the source
    (stack: [MaybeUninit<Value>; STACK_MAX] with stack_top,
    call_frames: [MaybeUninit<CallFrame>; FRAMES_MAX] with
    call_frame_count).  They are modelled as total functions Nat -> _
    together with the top counter; slots at or above the top are
    never-read garbage, exactly as the MaybeUninit slots are.
  - Pointers into the value stack (upvalue locations) are modelled as
    stack indices: the stack is one contiguous array, so pointer order
    coincides with index order.
  - A runtime error (VM::runtime_error followed by returning
    Err(InterpretError::RuntimeError) to the dispatch loop) is modelled
    as the `Except.error` case carrying the error message and the
    machine state after `reset_stack`.
-/

namespace Loxide

/-- Modelled from the spec: native_fn.rs is not under src/.  "Each native
is a tagged kind"; the VM pre-registers `clock` and a dummy native. -/
inductive NativeFnKind where
  | clock
  | dummy
deriving DecidableEq

/-- Modelled from the spec: obj.rs is not under src/.  A Function object:
"arity, upvalue count, chunk, optional name".  The chunk is its code-byte
sequence; the constant pool is not carried here, because the embedded
handlers receive their decoded constant operands as arguments. -/
structure ObjFunction where
  arity : Nat
  upvalue_count : Nat
  code : List Nat
  name : Option String
deriving DecidableEq

/-- Modelled from the spec: obj.rs is not under src/.  A Closure object
pairs a Function with its captured upvalues; the upvalue slots are not
dereferenced by any embedded handler and are elided. -/
structure ObjClosure where
  function : ObjFunction
deriving DecidableEq

/-- Modelled from the spec: obj.rs is not under src/.  Heap object kinds.
Strings are represented by their byte content: by the interning
invariant, content equality coincides with reference equality. -/
inductive Obj where
  | string (chars : String)
  | function (f : ObjFunction)
  | closure (c : ObjClosure)
  | native (kind : NativeFnKind)
deriving DecidableEq

/-- Modelled from the spec: value.rs is not under src/.  "A tagged union
of: Nil, Bool(bool), Number(f64), Obj(ref to heap Object)."  The f64
payload is abstracted as the type parameter N. -/
inductive Value (N : Type) where
  | nil
  | bool (b : Bool)
  | number (n : N)
  | obj (o : Obj)

/-- An open upvalue on the VM's open-upvalue list: its identity (the
heap allocation, abstracted as a numeric id) and its `location`, a
pointer into the value stack modelled as a stack index. -/
structure OpenUpvalue where
  uid : Nat
  location : Nat
deriving DecidableEq

/-- A closed upvalue: after close_upvalues, the stack value has been
copied into the upvalue's own `closed` field and `location` has been
retargeted at that field, which this representation makes intrinsic
(a ClosedUpvalue has no stack location any more). -/
structure ClosedUpvalue (N : Type) where
  uid : Nat
  closed : Value N

/-- CallFrame from vm.rs: instruction offset into the closure's chunk,
base slot into the value stack, and the closure being run. -/
structure CallFrame where
  instr_offset : Nat
  slots_offset : Nat
  closure : ObjClosure

/-- Modelled from the spec: table.rs is not under src/.  The hash table
is specified through its API: "set(key, value) returns true iff the key
is newly inserted"; "delete(key) replaces the entry with a tombstone and
returns whether it existed".  Keys are interned-String refs, for which
reference equality coincides with content equality, so the table is
modelled as an association list over string contents with unique keys
(the open-addressing layout and tombstones are invisible through this
API). -/
abbrev Table (N : Type) := List (String × Value N)

namespace Table

/-- Table.set: updates in place when the key exists (returning false),
otherwise inserts the new entry (returning true). -/
def set {N : Type} : Table N → String → Value N → Bool × Table N
  | [], k, v => (true, [(k, v)])
  | (k', v') :: rest, k, v =>
    if k' = k then (false, (k', v) :: rest)
    else
      let r := set rest k v
      (r.1, (k', v') :: r.2)

/-- Table.get. -/
def get {N : Type} : Table N → String → Option (Value N)
  | [], _ => none
  | (k', v') :: rest, k => if k' = k then some v' else get rest k

/-- Table.delete: removes the entry for the key when present. -/
def delete {N : Type} : Table N → String → Table N
  | [], _ => []
  | (k', v') :: rest, k => if k' = k then rest else (k', v') :: delete rest k

/-- Whether a key is present. -/
def contains {N : Type} (t : Table N) (k : String) : Bool :=
  t.any (fun p => p.1 = k)

end Table

/-- U8_COUNT from vm.rs: 256. -/
def U8_COUNT : Nat := 256

/-- FRAMES_MAX from vm.rs: 64. -/
def FRAMES_MAX : Nat := 64

/-- STACK_MAX from vm.rs: 64 * 256. -/
def STACK_MAX : Nat := 64 * U8_COUNT

/-- The VM state (struct VM in vm.rs).  obj_list and interned_strings
carry no information visible to the embedded operations (strings are
represented by content) and are elided.  closed_upvalues is the
embedding's view of the heap's closed upvalue objects: entries leave
open_upvalues and land there when close_upvalues retargets them. -/
structure VM (N : Type) where
  stack : Nat → Value N
  stack_top : Nat
  open_upvalues : List OpenUpvalue
  closed_upvalues : List (ClosedUpvalue N)
  call_frames : Nat → CallFrame
  call_frame_count : Nat
  globals : Table N

variable {N : Type}

/-- VM::push. -/
def push (vm : VM N) (val : Value N) : VM N :=
  { vm with
    stack := Function.update vm.stack vm.stack_top val
    stack_top := vm.stack_top + 1 }

/-- VM::pop: decrements stack_top and returns the value that was on top. -/
def pop (vm : VM N) : Value N × VM N :=
  (vm.stack (vm.stack_top - 1), { vm with stack_top := vm.stack_top - 1 })

/-- VM::peek. -/
def peek (vm : VM N) (distance : Nat) : Value N :=
  vm.stack (vm.stack_top - 1 - distance)

/-- VM::reset_stack. -/
def reset_stack (vm : VM N) : VM N :=
  { vm with stack_top := 0, call_frame_count := 0, open_upvalues := [] }

/-- VM::runtime_error followed by returning Err(RuntimeError): the error
carries the message and the state after reset_stack (the stack-trace
printing is an out-of-scope side effect). -/
def runtime_error (vm : VM N) (msg : String) : Except (String × VM N) (VM N) :=
  .error (msg, reset_stack vm)

/-- VM::top_call_frame. -/
def top_call_frame (vm : VM N) : CallFrame :=
  vm.call_frames (vm.call_frame_count - 1)

/-- Writing through VM::top_call_frame_mut. -/
def set_top_call_frame (vm : VM N) (f : CallFrame) : VM N :=
  { vm with call_frames := Function.update vm.call_frames (vm.call_frame_count - 1) f }

/-- matches!(v, Value::Number(_)). -/
def isNumber : Value N → Bool
  | .number _ => true
  | _ => false

/-- Modelled from the spec: value.rs is not under src/.  Value::is_str:
whether the value is an Obj of String kind. -/
def is_str : Value N → Bool
  | .obj (.string _) => true
  | _ => false

/-- Modelled from the spec: value.rs is not under src/.  Value::as_obj_str
content; the callers below only invoke it behind an is_str guard. -/
def as_str : Value N → String
  | .obj (.string s) => s
  | _ => ""

/-- Modelled from the spec: value.rs is not under src/.  "Truthiness:
Nil and Bool(false) are falsey; everything else is truthy." -/
def is_falsey : Value N → Bool
  | .nil => true
  | .bool b => !b
  | _ => false

/-- Modelled from the spec: value.rs is not under src/.  "Unary negation
is defined only on numbers": on a Number it yields the numeric negation
of the f64 payload (abstracted through Neg on N).  The spec leaves
negation of other values undefined; they are returned unchanged here,
and no theorem below depends on that choice. -/
def valueNeg [Neg N] : Value N → Value N
  | .number n => .number (-n)
  | v => v

/-- Modelled from the spec: value.rs is not under src/.  Numeric
addition of two Number values (std::ops::Add on Value); binary_op's
guard makes every other case unreachable, mapped to nil. -/
def valueAdd [Add N] : Value N → Value N → Value N
  | .number a, .number b => .number (a + b)
  | _, _ => .nil

/-- Modelled from the spec: value.rs is not under src/.  Numeric
subtraction of two Number values; other cases unreachable. -/
def valueSub [Sub N] : Value N → Value N → Value N
  | .number a, .number b => .number (a - b)
  | _, _ => .nil

/-- Modelled from the spec: value.rs is not under src/.  Numeric
multiplication of two Number values; other cases unreachable. -/
def valueMul [Mul N] : Value N → Value N → Value N
  | .number a, .number b => .number (a * b)
  | _, _ => .nil

/-- Modelled from the spec: value.rs is not under src/.  Numeric
division of two Number values; other cases unreachable. -/
def valueDiv [Div N] : Value N → Value N → Value N
  | .number a, .number b => .number (a / b)
  | _, _ => .nil

/-- Modelled from the spec: value.rs is not under src/.  Value::gt_owned:
Bool of the numeric comparison; other cases unreachable. -/
def valueGtOwned [LinearOrder N] : Value N → Value N → Value N
  | .number a, .number b => .bool (decide (b < a))
  | _, _ => .nil

/-- Modelled from the spec: value.rs is not under src/.  Value::lt_owned:
Bool of the numeric comparison; other cases unreachable. -/
def valueLtOwned [LinearOrder N] : Value N → Value N → Value N
  | .number a, .number b => .bool (decide (a < b))
  | _, _ => .nil

/-- VM::binary_op from vm.rs: errors unless both the top two stack
values are Numbers, otherwise pops both and pushes f a b. -/
def binary_op (vm : VM N) (f : Value N → Value N → Value N) :
    Except (String × VM N) (VM N) :=
  if !isNumber (peek vm 0) || !isNumber (peek vm 1) then
    runtime_error vm "Operands must be two numbers or two strings."
  else
    let r1 := pop vm
    let r2 := pop r1.2
    .ok (push r2.2 (f r2.1 r1.1))

/-- VM::concatenate from vm.rs: pops b then a and pushes the (interned)
string whose content is a's bytes followed by b's bytes.  The
buffer-allocation and interning path of the source returns a string
object determined, up to reference identity, by exactly this content. -/
def concatenate (vm : VM N) : VM N :=
  let r1 := pop vm
  let r2 := pop r1.2
  push r2.2 (Value.obj (Obj.string (as_str r2.1 ++ as_str r1.1)))

/-- The Opcode::Negate arm of VM::run: errors unless the top of the
stack matches Bool(_) | Number(_); otherwise pops and pushes the
negation (std::ops::Neg on Value, abstracted as the neg argument since
value.rs is not under src/). -/
def run_negate (vm : VM N) (neg : Value N → Value N) :
    Except (String × VM N) (VM N) :=
  if !(match peek vm 0 with
       | .bool _ => true
       | .number _ => true
       | _ => false) then
    runtime_error vm "Operand must be a number."
  else
    let r := pop vm
    .ok (push r.2 (neg r.1))

/-- The Opcode::Subtract arm of VM::run. -/
def run_subtract [Sub N] (vm : VM N) : Except (String × VM N) (VM N) :=
  binary_op vm valueSub

/-- The Opcode::Multiply arm of VM::run. -/
def run_multiply [Mul N] (vm : VM N) : Except (String × VM N) (VM N) :=
  binary_op vm valueMul

/-- The Opcode::Divide arm of VM::run. -/
def run_divide [Div N] (vm : VM N) : Except (String × VM N) (VM N) :=
  binary_op vm valueDiv

/-- The Opcode::Greater arm of VM::run. -/
def run_greater [LinearOrder N] (vm : VM N) : Except (String × VM N) (VM N) :=
  binary_op vm valueGtOwned

/-- The Opcode::Less arm of VM::run. -/
def run_less [LinearOrder N] (vm : VM N) : Except (String × VM N) (VM N) :=
  binary_op vm valueLtOwned

/-- The Opcode::Add arm of VM::run: concatenates when both operands are
strings, otherwise defers to binary_op with numeric addition. -/
def run_add [Add N] (vm : VM N) : Except (String × VM N) (VM N) :=
  if is_str (peek vm 0) && is_str (peek vm 1) then
    .ok (concatenate vm)
  else
    binary_op vm valueAdd

/-- The Opcode::SetGlobal arm of VM::run, after read_constant has
decoded the (interned string) variable name: sets the global; if set
reports a fresh insert the name was undefined, so the just-inserted key
is deleted again and a runtime error is raised. -/
def run_set_global (vm : VM N) (name : String) :
    Except (String × VM N) (VM N) :=
  let new_val := peek vm 0
  let r := Table.set vm.globals name new_val
  if r.1 then
    runtime_error { vm with globals := Table.delete r.2 name }
      ("Undefined variable: " ++ name)
  else
    .ok { vm with globals := r.2 }

/-- VM::next_call_frame from vm.rs: writes a frame with instruction
offset 0, base slot stack_top - arg_count - 1 and the given closure at
index call_frame_count, then increments call_frame_count. -/
def next_call_frame (vm : VM N) (closure : ObjClosure) (arg_count : Nat) : VM N :=
  { vm with
    call_frames := Function.update vm.call_frames vm.call_frame_count
      ⟨0, vm.stack_top - arg_count - 1, closure⟩
    call_frame_count := vm.call_frame_count + 1 }

/-- VM::call from vm.rs: arity check first, then frame-capacity check,
then next_call_frame. -/
def call (vm : VM N) (closure : ObjClosure) (arg_count : Nat) :
    Except (String × VM N) (VM N) :=
  if arg_count ≠ closure.function.arity then
    runtime_error vm
      ("Expected " ++ Nat.repr arg_count ++ " arguments but got " ++
        Nat.repr closure.function.arity ++ ".")
  else if vm.call_frame_count = FRAMES_MAX then
    runtime_error vm "Stack overflow."
  else
    .ok (next_call_frame vm closure arg_count)

/-- The argument slice handed to a native: stack[top - argc .. top]. -/
def argSlice (vm : VM N) (arg_count : Nat) : List (Value N) :=
  (List.range arg_count).map (fun i => vm.stack (vm.stack_top - arg_count + i))

/-- VM::call_value from vm.rs.  The semantics of a native function
(native_fn.rs is not under src/) is abstracted as the nativeSem
argument: per the spec, a native has uniform signature
fn(&[Value]) -> Value and is invoked over stack[top - argc .. top]. -/
def call_value (vm : VM N) (nativeSem : NativeFnKind → List (Value N) → Value N)
    (callee : Value N) (arg_count : Nat) : Except (String × VM N) (VM N) :=
  match callee with
  | .obj (.closure c) => call vm c arg_count
  | .obj (.native kind) =>
    let result := nativeSem kind (argSlice vm arg_count)
    let vm1 := { vm with stack_top := vm.stack_top - (arg_count + 1) }
    .ok (push vm1 result)
  | _ => runtime_error vm "Can only call functions and classes."

/-- VM::capture_upvalue from vm.rs, at the level of the open-upvalue
list: walk past entries whose location is above the requested slot;
reuse the entry whose location equals it; otherwise splice a fresh open
upvalue (identified by the fresh heap id) at that position.  Returns the
captured upvalue and the new list. -/
def capture_upvalue : List OpenUpvalue → Nat → Nat → OpenUpvalue × List OpenUpvalue
  | [], fresh, localSlot => (⟨fresh, localSlot⟩, [⟨fresh, localSlot⟩])
  | u :: rest, fresh, localSlot =>
    if localSlot < u.location then
      let r := capture_upvalue rest fresh localSlot
      (r.1, u :: r.2)
    else if u.location = localSlot then
      (u, u :: rest)
    else
      (⟨fresh, localSlot⟩, ⟨fresh, localSlot⟩ :: u :: rest)

/-- VM::close_upvalues from vm.rs, at the level of the open-upvalue
list: while the head's location is at or above the last slot, copy the
stack value at its location into its closed field, retarget it at that
field (intrinsic to ClosedUpvalue) and advance the head.  Returns the
remaining open list and the upvalues just closed. -/
def close_upvalues_list (stackVal : Nat → Value N) (lastSlot : Nat) :
    List OpenUpvalue → List OpenUpvalue × List (ClosedUpvalue N)
  | [] => ([], [])
  | u :: rest =>
    if u.location < lastSlot then (u :: rest, [])
    else
      let r := close_upvalues_list stackVal lastSlot rest
      (r.1, ⟨u.uid, stackVal u.location⟩ :: r.2)

/-- VM::close_upvalues on the whole machine state. -/
def close_upvalues (vm : VM N) (last_stack_offset : Nat) : VM N :=
  let r := close_upvalues_list vm.stack last_stack_offset vm.open_upvalues
  { vm with open_upvalues := r.1, closed_upvalues := r.2 ++ vm.closed_upvalues }

/-- Outcome of the Opcode::Return arm: either the outermost frame
returned (halt, Ok(()) in the source) or execution continues. -/
inductive StepOutcome (N : Type) where
  | halted (vm : VM N)
  | running (vm : VM N)

/-- The Opcode::Return arm of VM::run.  In the non-outermost case the
source pops the result, closes the upvalues at or above the returning
frame's base, decrements call_frame_count, and only then reads
top_call_frame().slots_offset - that is, the base of the CALLER's frame
- into stack_top, before pushing the result back. -/
def run_return (vm : VM N) : StepOutcome N :=
  if vm.call_frame_count = 1 then
    .halted (pop vm).2
  else
    let r := pop vm
    let slots_offset := (top_call_frame r.2).slots_offset
    let vm2 := close_upvalues r.2 slots_offset
    let vm3 := { vm2 with call_frame_count := vm2.call_frame_count - 1 }
    let vm4 := { vm3 with stack_top := (top_call_frame vm3).slots_offset }
    .running (push vm4 r.1)

/-- VM::read_u16 from vm.rs: reads the two bytes at the top frame's
instruction offset, advances the offset past them, and combines them as
(byte1 << 8) | byte2. -/
def read_u16 (vm : VM N) : Nat × VM N :=
  let frame := top_call_frame vm
  let byte1 := frame.closure.function.code.getD frame.instr_offset 0
  let byte2 := frame.closure.function.code.getD (frame.instr_offset + 1) 0
  ((byte1 <<< 8) ||| byte2,
    set_top_call_frame vm { frame with instr_offset := frame.instr_offset + 2 })

/-- The Opcode::JumpIfFalse arm of VM::run: reads the u16 offset, then
adds it to the instruction offset exactly when the (peeked, not popped)
top of stack is falsey. -/
def run_jump_if_false (vm : VM N) : VM N :=
  let r := read_u16 vm
  if is_falsey (peek r.2 0) then
    let f := top_call_frame r.2
    set_top_call_frame r.2 { f with instr_offset := f.instr_offset + r.1 }
  else
    r.2

/-- Whether an embedded step raised a runtime error. -/
def isRuntimeError : Except (String × VM N) (VM N) → Bool
  | .error _ => true
  | .ok _ => false

/-- Whether an embedded step succeeded. -/
def isOkE : Except (String × VM N) (VM N) → Bool
  | .error _ => false
  | .ok _ => true

/-- The machine state an embedded step ends in (error or not). -/
def resultState : Except (String × VM N) (VM N) → VM N
  | .error (_, vm) => vm
  | .ok vm => vm

/-- The runtime-error message of an embedded step, when there is one. -/
def errMessage : Except (String × VM N) (VM N) → Option String
  | .error (msg, _) => some msg
  | .ok _ => none

/-- The open-upvalue list invariant from the spec: sorted by strictly
descending stack location (so no two entries share a location). -/
def UpvSorted (l : List OpenUpvalue) : Prop :=
  l.Pairwise (fun a b => b.location < a.location)

instance (l : List OpenUpvalue) : Decidable (UpvSorted l) :=
  List.instDecidablePairwise l

/-- A closure taking no arguments, for concrete machine states. -/
def exClosure : ObjClosure := ⟨⟨0, 0, [], none⟩⟩

/-- A closure of arity 2, for concrete machine states. -/
def exClosureAr2 : ObjClosure := ⟨⟨2, 0, [], none⟩⟩

/-- A minimal concrete machine state: one frame, the script closure slot
on the stack, no opens, no globals. -/
def vmBase : VM Int :=
  { stack := fun _ => Value.nil
    stack_top := 1
    open_upvalues := []
    closed_upvalues := []
    call_frames := fun _ => ⟨0, 0, exClosure⟩
    call_frame_count := 1
    globals := [] }

/-- A concrete state about to execute Return in a non-outermost frame:
the caller's frame has base slot 0, the returning frame has base slot 3,
and the result Number 42 is on top of the stack (slot 5). -/
def vmReturnEx : VM Int :=
  { vmBase with
    stack := fun i => if i = 5 then Value.number 42 else Value.nil
    stack_top := 6
    call_frames := fun i => if i = 1 then ⟨7, 3, exClosure⟩ else ⟨2, 0, exClosure⟩
    call_frame_count := 2 }

/-- A concrete state with Bool(true) on top of the stack, about to
execute Negate. -/
def vmNegateEx : VM Int :=
  { vmBase with stack := fun _ => Value.bool true, stack_top := 1 }

/-- A concrete state whose globals table binds "x" (and nothing else),
with Number 7 on top of the stack. -/
def vmGlobalEx : VM Int :=
  { vmBase with
    stack := fun _ => Value.number 7
    stack_top := 2
    globals := [("x", Value.number 1)] }

/-- A concrete state for a native call: stack holds the callee at slot 1
and one argument Number 5 at slot 2. -/
def vmNativeEx : VM Int :=
  { vmBase with
    stack := fun i => if i = 2 then Value.number 5 else Value.nil
    stack_top := 3 }

/-- A native semantics for witnesses: returns its first argument. -/
def exNativeSem : NativeFnKind → List (Value Int) → Value Int :=
  fun _ args => args.getD 0 Value.nil

/-- A concrete state about to execute JumpIfFalse: the top frame's code
holds the operand bytes 1 and 2 at the instruction offset, and the top
of the stack is nil (falsey). -/
def vmJumpEx : VM Int :=
  { vmBase with
    call_frames := fun _ => ⟨0, 0, ⟨⟨0, 0, [1, 2], none⟩⟩⟩ }

/-- A sorted open-upvalue list for witnesses: locations 9, 4, 2. -/
def exOpenList : List OpenUpvalue := [⟨0, 9⟩, ⟨1, 4⟩, ⟨2, 2⟩]

/-- A concrete stack valuation for close-upvalue witnesses: slot i
holds Number i. -/
def exStackVal : Nat → Value Int := fun i => Value.number (Int.ofNat i)

/-- A concrete state with Numbers 2 (slot 1) and 3 (slot 2) as the two
binary operands. -/
def vmTwoNums : VM Int :=
  { vmBase with
    stack := fun i =>
      if i = 1 then Value.number 2 else if i = 2 then Value.number 3 else Value.nil
    stack_top := 3 }

/-- A concrete state with strings "ab" (slot 1) and "cd" (slot 2) as
the two binary operands. -/
def vmTwoStrs : VM Int :=
  { vmBase with
    stack := fun i =>
      if i = 1 then Value.obj (Obj.string "ab")
      else if i = 2 then Value.obj (Obj.string "cd") else Value.nil
    stack_top := 3 }

end Loxide

namespace Loxide

variable {N : Type}

theorem Table.set_fst_eq_not_contains (t : Table N) (k : String) (v : Value N) :
    (Table.set t k v).1 = !Table.contains t k := by
  induction t with
  | nil => simp [Table.set, Table.contains]
  | cons p rest ih =>
    by_cases h : p.1 = k
    · simp [Table.set, Table.contains, h]
    · simp [Table.set, Table.contains, h] at ih ⊢
      exact ih

theorem Table.delete_set_of_not_contains (t : Table N) (k : String) (v : Value N)
    (h : Table.contains t k = false) :
    Table.delete (Table.set t k v).2 k = t := by
  induction t with
  | nil => simp [Table.set, Table.delete]
  | cons p rest ih =>
    simp only [Table.contains, List.any_cons, Bool.or_eq_false_iff,
      decide_eq_false_iff_not] at h
    simp [Table.set, Table.delete, h.1, ih h.2]

theorem Table.get_set_self (t : Table N) (k : String) (v : Value N) :
    Table.get (Table.set t k v).2 k = some v := by
  induction t with
  | nil => simp [Table.set, Table.get]
  | cons p rest ih =>
    by_cases h : p.1 = k
    · simp [Table.set, Table.get, h]
    · simp [Table.set, Table.get, h, ih]

/-- C1: the claim states that a Return in a non-outermost frame leaves
stack_top at the returning frame's base + 1.  The code instead reads
top_call_frame().slots_offset only after decrementing call_frame_count,
i.e. the CALLER's base.  In this concrete state the returning frame's
base is 3 (so the claim demands stack_top = 4), but the machine ends
with stack_top = 1 (caller's base 0, plus the pushed result). -/
theorem C1_return_uses_caller_base :
    vmReturnEx.call_frame_count = 2 ∧
    (top_call_frame vmReturnEx).slots_offset = 3 ∧
    (match run_return vmReturnEx with
     | .running vm => vm.stack_top
     | .halted vm => vm.stack_top) = 1 ∧
    (match run_return vmReturnEx with
     | .running vm => vm.call_frame_count
     | .halted _ => 0) = 1 :=
  ⟨rfl, rfl, rfl, rfl⟩

/-- C2: the claim states Negate succeeds only on Numbers and raises a
runtime error on every non-Number operand.  The guard in the Negate arm
matches Bool(_) | Number(_), so with Bool(true) on top no runtime error
is raised and the negation is attempted. -/
theorem C2_negate_accepts_bool :
    peek vmNegateEx 0 = Value.bool true ∧
    isOkE (run_negate vmNegateEx valueNeg) = true :=
  ⟨rfl, rfl⟩

/-- C3: SetGlobal raises an undefined-variable runtime error exactly
when the name is absent from the globals table; in the error case the
table is left unchanged (the just-inserted key having been deleted
again), and when the name is present its entry is updated to the top of
the stack with no error. -/
theorem C3_set_global_undefined (vm : VM N) (name : String) :
    (isRuntimeError (run_set_global vm name) = !Table.contains vm.globals name) ∧
    (Table.contains vm.globals name = false →
      (resultState (run_set_global vm name)).globals = vm.globals) ∧
    (Table.contains vm.globals name = true →
      run_set_global vm name =
        .ok { vm with globals := (Table.set vm.globals name (peek vm 0)).2 } ∧
      Table.get (resultState (run_set_global vm name)).globals name =
        some (peek vm 0)) := by
  cases hc : Table.contains vm.globals name with
  | false =>
    have hf : (Table.set vm.globals name (peek vm 0)).1 = true := by
      rw [Table.set_fst_eq_not_contains, hc]; rfl
    refine ⟨?_, fun _ => ?_, fun h => by simp [hc] at h⟩
    · simp [run_set_global, hf, runtime_error, isRuntimeError]
    · simp [run_set_global, hf, runtime_error, resultState, reset_stack]
      exact Table.delete_set_of_not_contains _ _ _ hc
  | true =>
    have hf : (Table.set vm.globals name (peek vm 0)).1 = false := by
      rw [Table.set_fst_eq_not_contains, hc]; rfl
    refine ⟨?_, fun h => by simp [hc] at h, fun _ => ⟨?_, ?_⟩⟩
    · simp [run_set_global, hf, isRuntimeError]
    · simp [run_set_global, hf]
    · simp [run_set_global, hf, resultState]
      exact Table.get_set_self _ _ _

/-- C3 witness: in the concrete state vmGlobalEx, setting the bound
name "x" succeeds and updates it to the stack top, while setting the
unbound name "y" raises a runtime error and leaves the table as it
was. -/
theorem C3_witness :
    (isRuntimeError (run_set_global vmGlobalEx "y") = true ∧
      (resultState (run_set_global vmGlobalEx "y")).globals = vmGlobalEx.globals) ∧
    (isRuntimeError (run_set_global vmGlobalEx "x") = false ∧
      Table.get (resultState (run_set_global vmGlobalEx "x")).globals "x" =
        some (peek vmGlobalEx 0)) := by
  have hy := C3_set_global_undefined vmGlobalEx "y"
  have hx := C3_set_global_undefined vmGlobalEx "x"
  refine ⟨⟨?_, hy.2.1 (by decide)⟩, ⟨?_, (hx.2.2 (by decide)).2⟩⟩
  · rw [hy.1]; decide
  · rw [hx.1]; decide

/-- C4: calling a Closure raises a runtime error (pushing no frame)
when the argument count differs from the arity or 64 frames are already
active; otherwise it pushes exactly one frame with instruction offset 0
and base slot stack_top - argc - 1. -/
theorem C4_call_frame_discipline (vm : VM N) (clos : ObjClosure) (argc : Nat) :
    ((argc ≠ clos.function.arity ∨ vm.call_frame_count = FRAMES_MAX) →
      isRuntimeError (call vm clos argc) = true ∧
      (resultState (call vm clos argc)).call_frames = vm.call_frames) ∧
    (argc = clos.function.arity → vm.call_frame_count ≠ FRAMES_MAX →
      call vm clos argc = .ok (next_call_frame vm clos argc) ∧
      (next_call_frame vm clos argc).call_frame_count = vm.call_frame_count + 1 ∧
      (next_call_frame vm clos argc).call_frames vm.call_frame_count =
        ⟨0, vm.stack_top - argc - 1, clos⟩ ∧
      ∀ i, i ≠ vm.call_frame_count →
        (next_call_frame vm clos argc).call_frames i = vm.call_frames i) := by
  constructor
  · intro h
    by_cases hA : argc = clos.function.arity
    · have hF : vm.call_frame_count = FRAMES_MAX := h.resolve_left (by simp [hA])
      simp [call, hA, hF, runtime_error, isRuntimeError, resultState, reset_stack]
    · simp [call, hA, runtime_error, isRuntimeError, resultState, reset_stack]
  · intro hA hF
    refine ⟨by simp [call, hA, hF], rfl, ?_, ?_⟩
    · simp [next_call_frame]
    · intro i hi
      simp [next_call_frame, Function.update_noteq hi]

/-- C4 witness: a frame-pushing call and an arity-mismatch call on
concrete states. -/
theorem C4_witness :
    (call vmBase exClosureAr2 2 = .ok (next_call_frame vmBase exClosureAr2 2) ∧
      (next_call_frame vmBase exClosureAr2 2).call_frame_count = 2) ∧
    isRuntimeError (call vmBase exClosureAr2 1) = true := by
  have hok := (C4_call_frame_discipline vmBase exClosureAr2 2).2 (by decide) (by decide)
  have herr := (C4_call_frame_discipline vmBase exClosureAr2 1).1 (Or.inl (by decide))
  exact ⟨⟨hok.1, hok.2.1⟩, herr.1⟩

/-- C10: the arity-mismatch runtime error message places the supplied
argument count in the "Expected" position and the declared arity in the
"got" position, exactly as the format string in VM::call does. -/
theorem C10_arity_error_message (vm : VM N) (clos : ObjClosure) (argc : Nat)
    (h : argc ≠ clos.function.arity) :
    call vm clos argc =
      .error ("Expected " ++ Nat.repr argc ++ " arguments but got " ++
        Nat.repr clos.function.arity ++ ".", reset_stack vm) := by
  simp [call, h, runtime_error]

/-- C10 witness: supplying 1 argument to a function of arity 2 produces
the message "Expected 1 arguments but got 2.". -/
theorem C10_witness :
    (1 : Nat) ≠ exClosureAr2.function.arity ∧
    errMessage (call vmBase exClosureAr2 1) = some "Expected 1 arguments but got 2." := by
  constructor
  · decide
  · rw [C10_arity_error_message vmBase exClosureAr2 1 (by decide)]
    rfl

theorem pop_fst (vm : VM N) : (pop vm).1 = peek vm 0 := rfl

theorem pop_pop_fst (vm : VM N) : (pop (pop vm).2).1 = peek vm 1 := rfl

theorem peek_pop_zero (vm : VM N) : peek (pop vm).2 0 = peek vm 1 := rfl

theorem isNumber_eq_false_of_is_str (v : Value N) (h : is_str v = true) :
    isNumber v = false := by
  cases v with
  | number n => simp [is_str] at h
  | nil => rfl
  | bool b => rfl
  | obj o => rfl

theorem isOkE_binary_op (vm : VM N) (f : Value N → Value N → Value N) :
    isOkE (binary_op vm f) = (isNumber (peek vm 0) && isNumber (peek vm 1)) := by
  cases h0 : isNumber (peek vm 0) <;> cases h1 : isNumber (peek vm 1) <;>
    simp [binary_op, h0, h1, runtime_error, isOkE]

theorem isRuntimeError_binary_op (vm : VM N) (f : Value N → Value N → Value N) :
    isRuntimeError (binary_op vm f) =
      !(isNumber (peek vm 0) && isNumber (peek vm 1)) := by
  cases h0 : isNumber (peek vm 0) <;> cases h1 : isNumber (peek vm 1) <;>
    simp [binary_op, h0, h1, runtime_error, isRuntimeError]

/-- C5: Subtract, Multiply, Divide, Greater and Less succeed exactly
when both operands are Numbers (in particular Less on two strings is a
runtime error); Add succeeds exactly when both operands are strings
(pushing the concatenation) or both are numbers (pushing the sum). -/
theorem C5_binary_operand_typing [Add N] [Sub N] [Mul N] [Div N] [LinearOrder N]
    (vm : VM N) :
    (isOkE (run_subtract vm) = (isNumber (peek vm 0) && isNumber (peek vm 1))) ∧
    (isOkE (run_multiply vm) = (isNumber (peek vm 0) && isNumber (peek vm 1))) ∧
    (isOkE (run_divide vm) = (isNumber (peek vm 0) && isNumber (peek vm 1))) ∧
    (isOkE (run_greater vm) = (isNumber (peek vm 0) && isNumber (peek vm 1))) ∧
    (isOkE (run_less vm) = (isNumber (peek vm 0) && isNumber (peek vm 1))) ∧
    (is_str (peek vm 0) = true → is_str (peek vm 1) = true →
      isRuntimeError (run_less vm) = true) ∧
    (isOkE (run_add vm) =
      ((is_str (peek vm 0) && is_str (peek vm 1)) ||
        (isNumber (peek vm 0) && isNumber (peek vm 1)))) ∧
    (∀ a b : N, peek vm 1 = Value.number a → peek vm 0 = Value.number b →
      run_add vm = .ok (push (pop (pop vm).2).2 (Value.number (a + b)))) ∧
    (∀ s t : String,
      peek vm 1 = Value.obj (Obj.string s) → peek vm 0 = Value.obj (Obj.string t) →
      run_add vm = .ok (push (pop (pop vm).2).2 (Value.obj (Obj.string (s ++ t))))) := by
  refine ⟨isOkE_binary_op vm _, isOkE_binary_op vm _, isOkE_binary_op vm _,
    isOkE_binary_op vm _, isOkE_binary_op vm _, ?_, ?_, ?_, ?_⟩
  · intro h0 h1
    rw [run_less, isRuntimeError_binary_op, isNumber_eq_false_of_is_str _ h0]
    rfl
  · cases hs0 : is_str (peek vm 0) <;> cases hs1 : is_str (peek vm 1)
    · simp [run_add, hs0, hs1, isOkE_binary_op]
    · simp [run_add, hs0, hs1, isOkE_binary_op]
    · simp [run_add, hs0, hs1, isOkE_binary_op,
        isNumber_eq_false_of_is_str _ hs0]
    · simp [run_add, hs0, hs1, isOkE, isNumber_eq_false_of_is_str _ hs0]
  · intro a b h1 h0
    have hs0 : is_str (peek vm 0) = false := by rw [h0]; rfl
    rw [run_add, hs0]
    simp only [Bool.false_and, Bool.false_eq_true, if_false, binary_op,
      pop_fst, pop_pop_fst, peek_pop_zero, h0, h1, isNumber, Bool.not_true,
      Bool.false_or, Bool.or_self, if_false, valueAdd]
  · intro s t h1 h0
    have hs0 : is_str (peek vm 0) = true := by rw [h0]; rfl
    have hs1 : is_str (peek vm 1) = true := by rw [h1]; rfl
    rw [run_add, hs0, hs1]
    simp only [Bool.and_self, if_true, concatenate, pop_fst, pop_pop_fst,
      peek_pop_zero, h0, h1, as_str]

/-- C5 witness: with Numbers 2 and 3 on the stack, Subtract succeeds
and Add pushes their sum; with strings "ab" and "cd", Less raises a
runtime error and Add pushes the concatenation. -/
theorem C5_witness :
    isOkE (run_subtract vmTwoNums) = true ∧
    isRuntimeError (run_less vmTwoStrs) = true ∧
    run_add vmTwoNums =
      .ok (push (pop (pop vmTwoNums).2).2 (Value.number ((2 : Int) + 3))) ∧
    run_add vmTwoStrs =
      .ok (push (pop (pop vmTwoStrs).2).2 (Value.obj (Obj.string ("ab" ++ "cd")))) := by
  have hn := C5_binary_operand_typing (N := Int) vmTwoNums
  have hs := C5_binary_operand_typing (N := Int) vmTwoStrs
  refine ⟨?_, ?_, ?_, ?_⟩
  · rw [hn.1]; decide
  · exact hs.2.2.2.2.2.1 rfl rfl
  · exact hn.2.2.2.2.2.2.2.1 2 3 rfl rfl
  · exact hs.2.2.2.2.2.2.2.2 "ab" "cd" rfl rfl

/-- C8: calling a Native with argc arguments applies the native's
semantics to exactly the argc values stack[top - argc .. top], pops the
callee and the arguments, pushes the result (so stack_top drops by
exactly argc), touches no call frame, and never errors. -/
theorem C8_native_call (vm : VM N) (sem : NativeFnKind → List (Value N) → Value N)
    (kind : NativeFnKind) (argc : Nat) (h : argc + 1 ≤ vm.stack_top) :
    isOkE (call_value vm sem (Value.obj (Obj.native kind)) argc) = true ∧
    (resultState (call_value vm sem (Value.obj (Obj.native kind)) argc)).stack_top
      = vm.stack_top - argc ∧
    (resultState (call_value vm sem (Value.obj (Obj.native kind)) argc)).call_frame_count
      = vm.call_frame_count ∧
    (resultState (call_value vm sem (Value.obj (Obj.native kind)) argc)).call_frames
      = vm.call_frames ∧
    (resultState (call_value vm sem (Value.obj (Obj.native kind)) argc)).globals
      = vm.globals ∧
    peek (resultState (call_value vm sem (Value.obj (Obj.native kind)) argc)) 0
      = sem kind (argSlice vm argc) ∧
    ∀ i, i < vm.stack_top - (argc + 1) →
      (resultState (call_value vm sem (Value.obj (Obj.native kind)) argc)).stack i
        = vm.stack i := by
  refine ⟨rfl, ?_, rfl, rfl, rfl, ?_, ?_⟩
  · show vm.stack_top - (argc + 1) + 1 = vm.stack_top - argc
    omega
  · show Function.update vm.stack (vm.stack_top - (argc + 1)) _
      (vm.stack_top - (argc + 1) + 1 - 1 - 0) = _
    rw [Nat.add_sub_cancel, Nat.sub_zero, Function.update_same]
  · intro i hi
    show Function.update vm.stack (vm.stack_top - (argc + 1)) _ i = vm.stack i
    exact Function.update_noteq (Nat.ne_of_lt hi) _ _

/-- C8 witness: one-argument native call on a concrete state: the stack
drops from 3 to 2 and the native's result (its argument, Number 5) ends
on top. -/
theorem C8_witness :
    (1 : Nat) + 1 ≤ vmNativeEx.stack_top ∧
    isOkE (call_value vmNativeEx exNativeSem (Value.obj (Obj.native .clock)) 1) = true ∧
    (resultState (call_value vmNativeEx exNativeSem (Value.obj (Obj.native .clock)) 1)).stack_top = 2 ∧
    peek (resultState (call_value vmNativeEx exNativeSem (Value.obj (Obj.native .clock)) 1)) 0
      = exNativeSem .clock (argSlice vmNativeEx 1) := by
  have h := C8_native_call vmNativeEx exNativeSem .clock 1 (by decide)
  exact ⟨by decide, h.1, h.2.1, h.2.2.2.2.2.1⟩

theorem capture_upvalue_mem (lst : List OpenUpvalue) (fresh localSlot : Nat) :
    ∀ v ∈ (capture_upvalue lst fresh localSlot).2,
      v ∈ lst ∨ v = ⟨fresh, localSlot⟩ := by
  induction lst with
  | nil =>
    intro v hv
    simp [capture_upvalue] at hv
    exact Or.inr hv
  | cons u rest ih =>
    intro v hv
    by_cases h1 : localSlot < u.location
    · simp only [capture_upvalue, if_pos h1, List.mem_cons] at hv
      rcases hv with h | h
      · exact Or.inl (h ▸ List.mem_cons_self u rest)
      · rcases ih v h with h' | h'
        · exact Or.inl (List.mem_cons_of_mem u h')
        · exact Or.inr h'
    · by_cases h2 : u.location = localSlot
      · simp only [capture_upvalue, if_neg h1, if_pos h2] at hv
        exact Or.inl hv
      · simp only [capture_upvalue, if_neg h1, if_neg h2, List.mem_cons] at hv
        rcases hv with h | h | h
        · exact Or.inr h
        · exact Or.inl (h ▸ List.mem_cons_self u rest)
        · exact Or.inl (List.mem_cons_of_mem u h)

theorem capture_upvalue_sorted (lst : List OpenUpvalue) (fresh localSlot : Nat)
    (hs : UpvSorted lst) : UpvSorted (capture_upvalue lst fresh localSlot).2 := by
  induction lst with
  | nil => simp [capture_upvalue, UpvSorted]
  | cons u rest ih =>
    rw [UpvSorted, List.pairwise_cons] at hs
    obtain ⟨hu, hrest⟩ := hs
    by_cases h1 : localSlot < u.location
    · have ih' := ih hrest
      rw [UpvSorted] at ih' ⊢
      simp only [capture_upvalue, if_pos h1]
      rw [List.pairwise_cons]
      refine ⟨?_, ih'⟩
      intro b hb
      rcases capture_upvalue_mem rest fresh localSlot b hb with h | h
      · exact hu b h
      · rw [h]; exact h1
    · by_cases h2 : u.location = localSlot
      · simp only [capture_upvalue, if_neg h1, if_pos h2]
        rw [UpvSorted, List.pairwise_cons]
        exact ⟨hu, hrest⟩
      · have hul : u.location < localSlot := by omega
        simp only [capture_upvalue, if_neg h1, if_neg h2]
        rw [UpvSorted, List.pairwise_cons]
        refine ⟨?_, ?_⟩
        · intro b hb
          rcases List.mem_cons.mp hb with h | h
          · rw [h]; exact hul
          · exact lt_trans (hu b h) hul
        · rw [List.pairwise_cons]
          exact ⟨hu, hrest⟩

theorem capture_upvalue_reuse (lst : List OpenUpvalue) (fresh localSlot : Nat)
    (hs : UpvSorted lst) (h : ∃ u ∈ lst, u.location = localSlot) :
    (capture_upvalue lst fresh localSlot).2 = lst ∧
    (capture_upvalue lst fresh localSlot).1 ∈ lst ∧
    (capture_upvalue lst fresh localSlot).1.location = localSlot := by
  induction lst with
  | nil => simp at h
  | cons u rest ih =>
    rw [UpvSorted, List.pairwise_cons] at hs
    obtain ⟨hu, hrest⟩ := hs
    by_cases h1 : localSlot < u.location
    · have hex : ∃ w ∈ rest, w.location = localSlot := by
        obtain ⟨w, hw, hwl⟩ := h
        rcases List.mem_cons.mp hw with rfl | hw'
        · omega
        · exact ⟨w, hw', hwl⟩
      have hr := ih hrest hex
      simp only [capture_upvalue, if_pos h1]
      exact ⟨by rw [hr.1], List.mem_cons_of_mem u hr.2.1, hr.2.2⟩
    · by_cases h2 : u.location = localSlot
      · simp only [capture_upvalue, if_neg h1, if_pos h2]
        exact ⟨trivial, List.mem_cons_self u rest, h2⟩
      · exfalso
        obtain ⟨w, hw, hwl⟩ := h
        rcases List.mem_cons.mp hw with rfl | hw'
        · exact h2 hwl
        · have := hu w hw'
          omega

theorem capture_upvalue_fresh_splice (lst : List OpenUpvalue) (fresh localSlot : Nat)
    (h : ∀ u ∈ lst, u.location ≠ localSlot) :
    (capture_upvalue lst fresh localSlot).1 = ⟨fresh, localSlot⟩ ∧
    (capture_upvalue lst fresh localSlot).2 =
      lst.takeWhile (fun u => decide (localSlot < u.location)) ++
        ⟨fresh, localSlot⟩ :: lst.dropWhile (fun u => decide (localSlot < u.location)) := by
  induction lst with
  | nil => simp [capture_upvalue]
  | cons u rest ih =>
    by_cases h1 : localSlot < u.location
    · have hr := ih (fun v hv => h v (List.mem_cons_of_mem u hv))
      simp only [capture_upvalue, if_pos h1, List.takeWhile_cons, List.dropWhile_cons,
        decide_eq_true_eq, h1, if_true, hr.1, hr.2, List.cons_append]
      exact ⟨by trivial, by trivial⟩
    · have h2 : u.location ≠ localSlot := h u (List.mem_cons_self u rest)
      simp only [capture_upvalue, if_neg h1, if_neg h2, List.takeWhile_cons,
        List.dropWhile_cons, decide_eq_true_eq, h1, if_false, List.nil_append]
      exact ⟨by trivial, by trivial⟩

/-- C6: on a list sorted by strictly descending location, capture_upvalue
preserves sortedness; when the slot is already captured it returns that
existing upvalue and leaves the list unchanged; otherwise it splices
exactly one fresh open upvalue at the position its location determines. -/
theorem C6_capture_upvalue (lst : List OpenUpvalue) (fresh localSlot : Nat)
    (hs : UpvSorted lst) :
    UpvSorted (capture_upvalue lst fresh localSlot).2 ∧
    ((∃ u ∈ lst, u.location = localSlot) →
      (capture_upvalue lst fresh localSlot).2 = lst ∧
      (capture_upvalue lst fresh localSlot).1 ∈ lst ∧
      (capture_upvalue lst fresh localSlot).1.location = localSlot) ∧
    ((∀ u ∈ lst, u.location ≠ localSlot) →
      (capture_upvalue lst fresh localSlot).1 = ⟨fresh, localSlot⟩ ∧
      (capture_upvalue lst fresh localSlot).2 =
        lst.takeWhile (fun u => decide (localSlot < u.location)) ++
          ⟨fresh, localSlot⟩ :: lst.dropWhile (fun u => decide (localSlot < u.location))) :=
  ⟨capture_upvalue_sorted lst fresh localSlot hs,
   fun h => capture_upvalue_reuse lst fresh localSlot hs h,
   fun h => capture_upvalue_fresh_splice lst fresh localSlot h⟩

/-- C6 witness: on the sorted list with locations 9, 4, 2, capturing
slot 4 reuses the existing upvalue and leaves the list unchanged,
while capturing slot 5 splices one new upvalue between 9 and 4. -/
theorem C6_witness :
    UpvSorted exOpenList ∧
    (capture_upvalue exOpenList 7 4).2 = exOpenList ∧
    (capture_upvalue exOpenList 7 4).1.location = 4 ∧
    (capture_upvalue exOpenList 7 5).1 = ⟨7, 5⟩ ∧
    (capture_upvalue exOpenList 7 5).2 =
      exOpenList.takeWhile (fun u => decide (5 < u.location)) ++
        ⟨7, 5⟩ :: exOpenList.dropWhile (fun u => decide (5 < u.location)) := by
  have h4 := C6_capture_upvalue exOpenList 7 4 (by decide)
  have h5 := C6_capture_upvalue exOpenList 7 5 (by decide)
  have hex : ∃ u ∈ exOpenList, u.location = 4 := by decide
  have hno : ∀ u ∈ exOpenList, u.location ≠ 5 := by decide
  exact ⟨by decide, (h4.2.1 hex).1, (h4.2.1 hex).2.2, (h5.2.2 hno).1, (h5.2.2 hno).2⟩

/-- C7: on a sorted open list, close_upvalues removes exactly the
upvalues whose location is at or above the last slot, each closed over
the stack value at its location (and, by the ClosedUpvalue
representation, retargeted at its own closed field); every remaining
open upvalue has location strictly below the last slot. -/
theorem C7_close_upvalues (stackVal : Nat → Value N) (lastSlot : Nat)
    (lst : List OpenUpvalue) (hs : UpvSorted lst) :
    (close_upvalues_list stackVal lastSlot lst).1 =
      lst.filter (fun u => decide (u.location < lastSlot)) ∧
    (close_upvalues_list stackVal lastSlot lst).2 =
      (lst.filter (fun u => decide (lastSlot ≤ u.location))).map
        (fun u => ⟨u.uid, stackVal u.location⟩) ∧
    ∀ u ∈ (close_upvalues_list stackVal lastSlot lst).1,
      u.location < lastSlot := by
  induction lst with
  | nil => simp [close_upvalues_list]
  | cons u rest ih =>
    rw [UpvSorted, List.pairwise_cons] at hs
    obtain ⟨hu, hrest⟩ := hs
    by_cases h1 : u.location < lastSlot
    · have hall : ∀ v ∈ rest, v.location < lastSlot :=
        fun v hv => lt_trans (hu v hv) h1
      have hfil : rest.filter (fun v => decide (v.location < lastSlot)) = rest :=
        List.filter_eq_self.mpr (fun v hv => decide_eq_true (hall v hv))
      have hnil : rest.filter (fun v => decide (lastSlot ≤ v.location)) = [] :=
        List.filter_eq_nil_iff.mpr
          (fun v hv => by
            have := hall v hv
            simp only [decide_eq_true_eq]
            omega)
      refine ⟨?_, ?_, ?_⟩
      · simp only [close_upvalues_list, if_pos h1, List.filter_cons,
          decide_eq_true (show u.location < lastSlot from h1), if_true, hfil]
      · simp only [close_upvalues_list, if_pos h1, List.filter_cons]
        have : (decide (lastSlot ≤ u.location)) = false := by
          simp only [decide_eq_false_iff_not]; omega
        simp [this, hnil]
      · intro v hv
        simp only [close_upvalues_list, if_pos h1] at hv
        rcases List.mem_cons.mp hv with rfl | hv'
        · exact h1
        · exact hall v hv'
    · have ih' := ih hrest
      have hge : (decide (lastSlot ≤ u.location)) = true := by
        simp only [decide_eq_true_eq]; omega
      have hlt : (decide (u.location < lastSlot)) = false := by
        simp only [decide_eq_false_iff_not]; omega
      refine ⟨?_, ?_, ?_⟩
      · simp only [close_upvalues_list, if_neg h1, List.filter_cons, hlt,
          Bool.false_eq_true, if_false]
        exact ih'.1
      · simp only [close_upvalues_list, if_neg h1, List.filter_cons, hge,
          if_true, List.map_cons]
        rw [ih'.2.1]
      · intro v hv
        simp only [close_upvalues_list, if_neg h1] at hv
        exact ih'.2.2 v hv

/-- C7 witness: closing at slot 3 on the sorted list with locations
9, 4, 2 removes the upvalues at 9 and 4 (closed over the stack values
there) and keeps only the one at 2. -/
theorem C7_witness :
    UpvSorted exOpenList ∧
    (close_upvalues_list exStackVal 3 exOpenList).1 =
      exOpenList.filter (fun u => decide (u.location < 3)) ∧
    (close_upvalues_list exStackVal 3 exOpenList).2 =
      (exOpenList.filter (fun u => decide (3 ≤ u.location))).map
        (fun u => ⟨u.uid, exStackVal u.location⟩) ∧
    ∀ u ∈ (close_upvalues_list exStackVal 3 exOpenList).1, u.location < 3 := by
  have h := C7_close_upvalues exStackVal 3 exOpenList (by decide)
  exact ⟨by decide, h.1, h.2.1, h.2.2⟩

theorem mul_two_pow_lor_eq_add :
    ∀ n a b : Nat, b < 2 ^ n → (a * 2 ^ n) ||| b = a * 2 ^ n + b := by
  intro n
  induction n with
  | zero =>
    intro a b hb
    have hb0 : b = 0 := Nat.lt_one_iff.mp hb
    subst hb0
    simp
  | succ n ih =>
    intro a b hb
    have hX : a * 2 ^ (n + 1) = 2 * (a * 2 ^ n) := by
      rw [Nat.pow_succ]; ring
    have hx : a * 2 ^ (n + 1) = Nat.bit false (a * 2 ^ n) := by
      rw [Nat.bit_val, hX]
      simp
    have hpow : 2 ^ (n + 1) = 2 ^ n * 2 := Nat.pow_succ 2 n
    have hb2 : Nat.div2 b < 2 ^ n := by
      rw [Nat.div2_val]
      omega
    calc (a * 2 ^ (n + 1)) ||| b
        = Nat.bit false (a * 2 ^ n) ||| Nat.bit (Nat.bodd b) (Nat.div2 b) := by
          rw [← hx, Nat.bit_decomp]
      _ = Nat.bit (false || Nat.bodd b) ((a * 2 ^ n) ||| Nat.div2 b) :=
          Nat.lor_bit false (a * 2 ^ n) (Nat.bodd b) (Nat.div2 b)
      _ = Nat.bit (Nat.bodd b) (a * 2 ^ n + Nat.div2 b) := by
          rw [Bool.false_or, ih a (Nat.div2 b) hb2]
      _ = a * 2 ^ (n + 1) + b := by
          rw [Nat.bit_val, hX]
          have hd := Nat.bodd_add_div2 b
          omega

theorem shiftLeft_eight_lor_eq (b1 b2 : Nat) (h : b2 < 256) :
    (b1 <<< 8) ||| b2 = 256 * b1 + b2 := by
  rw [Nat.shiftLeft_eq]
  have h8 : (2 : Nat) ^ 8 = 256 := by norm_num
  rw [mul_two_pow_lor_eq_add 8 b1 b2 (by omega), h8]
  ring

theorem top_call_frame_set (vm : VM N) (f : CallFrame) :
    top_call_frame (set_top_call_frame vm f) = f := by
  simp [top_call_frame, set_top_call_frame]

theorem read_u16_snd (vm : VM N) :
    (read_u16 vm).2 = set_top_call_frame vm
      { top_call_frame vm with
        instr_offset := (top_call_frame vm).instr_offset + 2 } := rfl

theorem read_u16_fst (vm : VM N) :
    (read_u16 vm).1 =
      ((top_call_frame vm).closure.function.code.getD
        (top_call_frame vm).instr_offset 0 <<< 8) |||
      (top_call_frame vm).closure.function.code.getD
        ((top_call_frame vm).instr_offset + 1) 0 := rfl

/-- C9: JumpIfFalse decodes its u16 operand big-endian
(offset = 256 * first + second), advances the instruction pointer past
the two operand bytes and then adds the offset exactly when the top of
the stack is falsey (Nil or Bool false); the stack, and in particular
its top, is untouched in both cases. -/
theorem C9_jump_if_false (vm : VM N) (b1 b2 : Nat)
    (h1 : (top_call_frame vm).closure.function.code.getD
      (top_call_frame vm).instr_offset 0 = b1)
    (h2 : (top_call_frame vm).closure.function.code.getD
      ((top_call_frame vm).instr_offset + 1) 0 = b2)
    (hb : b2 < 256) :
    (run_jump_if_false vm).stack = vm.stack ∧
    (run_jump_if_false vm).stack_top = vm.stack_top ∧
    peek (run_jump_if_false vm) 0 = peek vm 0 ∧
    (top_call_frame (run_jump_if_false vm)).instr_offset =
      (if is_falsey (peek vm 0) then
        (top_call_frame vm).instr_offset + 2 + (256 * b1 + b2)
      else (top_call_frame vm).instr_offset + 2) := by
  have hdef : run_jump_if_false vm =
      if is_falsey (peek vm 0) then
        set_top_call_frame (read_u16 vm).2
          { top_call_frame (read_u16 vm).2 with
            instr_offset :=
              (top_call_frame (read_u16 vm).2).instr_offset + (read_u16 vm).1 }
      else (read_u16 vm).2 := rfl
  refine ⟨?_, ?_, ?_, ?_⟩
  · rw [hdef]; split <;> rfl
  · rw [hdef]; split <;> rfl
  · rw [hdef]; split <;> rfl
  · rw [hdef]
    cases hf : is_falsey (peek vm 0)
    · simp only [Bool.false_eq_true, if_false, read_u16_snd, top_call_frame_set]
    · simp only [if_true, read_u16_snd, read_u16_fst, top_call_frame_set, h1, h2]
      rw [shiftLeft_eight_lor_eq b1 b2 hb]

/-- C9 witness: with operand bytes 1 and 2 and a falsey (nil) stack
top, the instruction offset lands at 0 + 2 + 258 = 260 and the stack is
untouched. -/
theorem C9_witness :
    (2 : Nat) < 256 ∧
    (top_call_frame (run_jump_if_false vmJumpEx)).instr_offset = 260 ∧
    (run_jump_if_false vmJumpEx).stack_top = vmJumpEx.stack_top := by
  have h := C9_jump_if_false vmJumpEx 1 2 rfl rfl (by decide)
  refine ⟨by decide, ?_, h.2.1⟩
  rw [h.2.2.2]
  decide

end Loxide
